import Mathlib

/-!
Shallow embedding of `src/hyperlight_host/src/hypervisor/mod.rs` (the vCPU
execution core of the hyperlight micro-VM sandbox): the memory-access
arbiter `Hypervisor::get_memory_access_violation`, the log-level
negotiation `Hypervisor::get_max_log_level`, the `VirtualCPU::run` loop,
and the Linux interrupt handle (`send_signal`, `kill`,
`set_running_and_increment_generation`).

Conventions: machine integers (u16/u32/u64/usize) are `Nat`, with masking
made explicit where the source relies on a fixed width; Rust `Result<T>`
is `Except HyperlightError T`; Rust strings are `List Char`; the
`cfg(crashdump)` and `cfg(gdb)` features are taken as enabled, since the
specification describes the behaviour of both. Stateful collaborators
(the backend's successive `run()` results, the handlers' successive
results, the successive relaxed loads of the packed atomic word) are
passed as explicit lists of outcomes, consumed in order; a run-loop
function returns `none` when its script of outcomes runs out before the
loop terminates.
-/

namespace Hyperlight

/-- Modelled from the spec: `MemoryRegionFlags` lives in
`crate::mem::memory_region`, which is not among the sources; spec §3
describes it as "a set of permission flags drawn from {READ, WRITE,
EXECUTE, STACK_GUARD, …}". A flag set is represented as a `Nat` bitmask
(the Rust type is a `bitflags` over `u32`); no claim depends on the
numeric choice of bits. -/
def READ : Nat := 1

/-- Modelled from the spec: the WRITE permission bit (see `READ`). -/
def WRITE : Nat := 2

/-- Modelled from the spec: the EXECUTE permission bit (see `READ`). -/
def EXECUTE : Nat := 4

/-- Modelled from the spec: the STACK_GUARD bit — "a region mapped
specifically to fault on access, used to detect stack overflow". -/
def STACK_GUARD : Nat := 8

/-- bitflags `contains`: all bits of `other` are present in `self`
(`self.bits & other.bits == other.bits`). -/
def flagsContains (self other : Nat) : Bool :=
  self &&& other == other

/-- bitflags `intersects`: `self` and `other` share at least one bit
(`self.bits & other.bits != 0`). -/
def flagsIntersects (self other : Nat) : Bool :=
  self &&& other != 0

/-- Modelled from the spec: `MemoryRegion` (`crate::mem::memory_region`,
not among the sources) — "a half-open interval of guest physical
addresses with a set of permission flags" (spec §3). The two bounds embed
the Rust field `guest_region : Range<usize>`. -/
structure MemoryRegion where
  guestRegionStart : Nat
  guestRegionEnd : Nat
  flags : Nat
deriving DecidableEq, Repr

/-- Rust `region.guest_region.contains(&gpa)`: membership in the half-open
range `start ≤ gpa < end`. -/
def regionContainsGpa (region : MemoryRegion) (gpa : Nat) : Bool :=
  decide (region.guestRegionStart ≤ gpa) && decide (gpa < region.guestRegionEnd)

/-- Modelled from the spec: the gdb stop reason (`gdb::VcpuStopReason`,
not among the sources). Only the `Crash` variant is referenced by the run
loop; all other variants are collapsed into `Other`. -/
inductive VcpuStopReason where
| Crash
| Other (n : Nat)
deriving DecidableEq, Repr

/-- Source `HyperlightExit` (lines 103-121): the generic exit reasons a
backend's `run` can produce. `Debug` is the `cfg(gdb)` variant. -/
inductive HyperlightExit where
| Debug (stopReason : VcpuStopReason)
| Halt
| IoOut (port : Nat) (data : List Nat) (rip : Nat) (instructionLength : Nat)
| Mmio (addr : Nat)
| AccessViolation (addr : Nat) (tried : Nat) (regionFlags : Nat)
| Cancelled
| Unknown (reason : String)
| Retry
deriving DecidableEq, Repr

/-- Modelled from the spec: `HyperlightError` lives in `crate::error`,
which is not among the sources. Variants follow the error vocabulary of
spec §7: `MmioAt addr` stands for the formatted
`Error("MMIO access address {addr:#x}")` the Mmio arm produces,
`UnexpectedExit reason` for the formatted
`Error("Unexpected VM Exit {reason}")` of the Unknown arm, and
`Error s` is the catch-all used for arbitrary collaborator / backend
errors. -/
inductive HyperlightError where
| StackOverflow
| MemoryAccessViolation (addr : Nat) (tried : Nat) (region : Nat)
| ExecutionCanceledByHost
| MmioAt (addr : Nat)
| UnexpectedExit (reason : String)
| Error (s : String)
deriving DecidableEq, Repr

/-- Source `Hypervisor::get_memory_access_violation` (lines 191-214):
find the first region containing `gpa`; if its flags do not contain every
bit of `access_info`, or contain STACK_GUARD, report an
`AccessViolation`; otherwise (or when no region contains `gpa`) return
`none`. -/
def get_memory_access_violation (gpa : Nat) (mem_regions : List MemoryRegion)
    (access_info : Nat) : Option HyperlightExit :=
  match mem_regions.find? (fun region => regionContainsGpa region gpa) with
  | some region =>
    if !(flagsContains region.flags access_info)
        || flagsContains region.flags STACK_GUARD then
      some (HyperlightExit.AccessViolation gpa access_info region.flags)
    else
      none
  | none => none

/-! ### Log-level negotiation (`Hypervisor::get_max_log_level`) -/

/-- Rust `str::split(c)`: split a string at every occurrence of the
character `c`. The result is always non-empty; an empty input yields one
empty segment, exactly as in Rust. -/
def splitOnChar (c : Char) : List Char → List (List Char)
  | [] => [[]]
  | x :: xs =>
    let rest := splitOnChar c xs
    if x = c then
      [] :: rest
    else
      match rest with
      | [] => [[x]]
      | h :: t => (x :: h) :: t

/-- Rust `str::contains(pat)` for a string pattern: `pat` occurs as a
contiguous substring. -/
def containsSub (pat s : List Char) : Bool :=
  decide (pat <:+: s)

/-- The `log::LevelFilter` type with its numeric discriminants (`as u32` uses the
declaration order Off=0 … Trace=5). -/
inductive LevelFilter where
| Off
| Error
| Warn
| Info
| Debug
| Trace
deriving DecidableEq, Repr

/-- Rust `u8::to_ascii_lowercase` on a character (ASCII letters only). -/
def asciiLower (c : Char) : Char :=
  if 'A' ≤ c ∧ c ≤ 'Z' then Char.ofNat (c.toNat + 32) else c

/-- Rust `str::eq_ignore_ascii_case`. -/
def eqIgnoreAsciiCase (a b : List Char) : Bool :=
  a.map asciiLower == b.map asciiLower

/-- Rust `log::LevelFilter::from_str`: case-insensitive match against
`["OFF", "ERROR", "WARN", "INFO", "DEBUG", "TRACE"]`; anything else is a
parse error (`none`). -/
def levelFilterFromStr (s : List Char) : Option LevelFilter :=
  if eqIgnoreAsciiCase s ("OFF".toList) then some LevelFilter.Off
  else if eqIgnoreAsciiCase s ("ERROR".toList) then some LevelFilter.Error
  else if eqIgnoreAsciiCase s ("WARN".toList) then some LevelFilter.Warn
  else if eqIgnoreAsciiCase s ("INFO".toList) then some LevelFilter.Info
  else if eqIgnoreAsciiCase s ("DEBUG".toList) then some LevelFilter.Debug
  else if eqIgnoreAsciiCase s ("TRACE".toList) then some LevelFilter.Trace
  else none

/-- The guest logger name, `"hyperlight_guest"`. -/
def guestLoggerName : List Char := "hyperlight_guest".toList

/-- The host logger name, `"hyperlight_host"`. -/
def hostLoggerName : List Char := "hyperlight_host".toList

/-- Rust `seg.split('=').nth(1).unwrap_or("")`: the text between the first
`=` of the segment and the following `=` (or the segment's end); empty
when the segment has no `=`. -/
def levelTokenOfSegment (seg : List Char) : List Char :=
  List.getD (splitOnChar '=' seg) 1 []

/-- Source `Hypervisor::get_max_log_level` (lines 220-254), as a function
of the value `val` of the `RUST_LOG` environment variable (the sole
environment read; an unset variable is the empty string via
`unwrap_or_default`). -/
def get_max_log_level (val : List Char) : LevelFilter :=
  let level :=
    if containsSub guestLoggerName val then
      levelTokenOfSegment
        (((splitOnChar ',' val).find?
            (fun s => containsSub guestLoggerName s)).getD [])
    else if containsSub hostLoggerName val then
      levelTokenOfSegment
        (((splitOnChar ',' val).find?
            (fun s => containsSub hostLoggerName s)).getD [])
    else
      ((splitOnChar ',' val).find?
          (fun s => !(containsSub ("=".toList) s))).getD []
  (levelFilterFromStr level).getD LevelFilter.Error

/-- Claim-side definition, following the words of claim C8: select, in
priority order over the comma-separated segments, the text after `=` of
the first segment mentioning the guest logger name if any segment does;
otherwise of the first segment mentioning the host logger name; otherwise
the first segment containing no `=`; and default to `Error` whenever the
selected token (or the empty token, when nothing matched) fails to parse.
-/
def get_max_log_level_claim (val : List Char) : LevelFilter :=
  let segments := splitOnChar ',' val
  let level :=
    match segments.find? (fun s => containsSub guestLoggerName s) with
    | some seg => levelTokenOfSegment seg
    | none =>
      match segments.find? (fun s => containsSub hostLoggerName s) with
      | some seg => levelTokenOfSegment seg
      | none =>
        (segments.find? (fun s => !(containsSub ("=".toList) s))).getD []
  (levelFilterFromStr level).getD LevelFilter.Error

/-! ### The run loop (`VirtualCPU::run`, source lines 290-367)

The backend and the collaborators are scripted: `exits` is the sequence
of results of the successive `hv.run()` calls, `io` of `hv.handle_io`,
`dbg` of `hv.handle_debug` (both the Debug-exit handler and the
discarded crash notification draw from it, in call order), `cd` of
`crashdump::generate_crashdump`, and `ma` of `handle_mem_access`.
The result pairs the outcome of `VirtualCPU::run` (`none` when a script
is exhausted, i.e. the corresponding call's outcome was left unspecified)
with the number of increments of the guest-cancellation counter metric. -/

/-- One execution of the `VirtualCPU::run` loop over scripted
collaborators; see the section comment for the meaning of the five
lists. Faithful to the source arm by arm; in particular the `?` operator
on `generate_crashdump`, `handle_io` and `handle_mem_access` propagates
the collaborator's error, while the crash notification
`let _ = hv.handle_debug(..)` discards its result. -/
def vcpuRun :
    List (Except HyperlightError HyperlightExit) →
    List (Except HyperlightError Unit) →
    List (Except HyperlightError Unit) →
    List (Except HyperlightError Unit) →
    List (Except HyperlightError Unit) →
    Option (Except HyperlightError Unit) × Nat
  | [], _, _, _, _ => (none, 0)
  | Except.ok (HyperlightExit.Debug _) :: rest, io, dbg, cd, ma =>
    match dbg with
    | [] => (none, 0)
    | Except.ok () :: dbg' => vcpuRun rest io dbg' cd ma
    | Except.error e :: _ => (some (Except.error e), 0)
  | Except.ok HyperlightExit.Halt :: _, _, _, _, _ =>
    (some (Except.ok ()), 0)
  | Except.ok (HyperlightExit.IoOut _ _ _ _) :: rest, io, dbg, cd, ma =>
    match io with
    | [] => (none, 0)
    | Except.ok () :: io' => vcpuRun rest io' dbg cd ma
    | Except.error e :: _ => (some (Except.error e), 0)
  | Except.ok (HyperlightExit.Mmio addr) :: _, _, _, cd, ma =>
    match cd with
    | [] => (none, 0)
    | Except.error ce :: _ => (some (Except.error ce), 0)
    | Except.ok () :: _ =>
      match ma with
      | [] => (none, 0)
      | Except.error me :: _ => (some (Except.error me), 0)
      | Except.ok () :: _ => (some (Except.error (HyperlightError.MmioAt addr)), 0)
  | Except.ok (HyperlightExit.AccessViolation addr tried region_permission) :: _,
      _, dbg, cd, _ =>
    match cd with
    | [] => (none, 0)
    | Except.error ce :: _ => (some (Except.error ce), 0)
    | Except.ok () :: _ =>
      match dbg with
      | [] => (none, 0)
      | _ :: _ =>
        if flagsIntersects region_permission STACK_GUARD then
          (some (Except.error HyperlightError.StackOverflow), 0)
        else
          (some (Except.error
            (HyperlightError.MemoryAccessViolation addr tried region_permission)), 0)
  | Except.ok HyperlightExit.Cancelled :: _, _, _, _, _ =>
    (some (Except.error HyperlightError.ExecutionCanceledByHost), 1)
  | Except.ok (HyperlightExit.Unknown reason) :: _, _, dbg, cd, _ =>
    match cd with
    | [] => (none, 0)
    | Except.error ce :: _ => (some (Except.error ce), 0)
    | Except.ok () :: _ =>
      match dbg with
      | [] => (none, 0)
      | _ :: _ => (some (Except.error (HyperlightError.UnexpectedExit reason)), 0)
  | Except.ok HyperlightExit.Retry :: rest, io, dbg, cd, ma =>
    vcpuRun rest io dbg cd ma
  | Except.error e :: _, _, dbg, cd, _ =>
    match cd with
    | [] => (none, 0)
    | Except.error ce :: _ => (some (Except.error ce), 0)
    | Except.ok () :: _ =>
      match dbg with
      | [] => (none, 0)
      | _ :: _ => (some (Except.error e), 0)

/-! ### The Linux interrupt handle (source lines 444-521) -/

/-- Source constant `LinuxInterruptHandle::RUNNING_BIT = 1 << 63`. -/
def RUNNING_BIT : Nat := 1 <<< 63

/-- Source constant `LinuxInterruptHandle::MAX_GENERATION = RUNNING_BIT - 1`. -/
def MAX_GENERATION : Nat := RUNNING_BIT - 1

/-- The u64 bitwise complement `!RUNNING_BIT`. -/
def NOT_RUNNING_BIT : Nat := (2 ^ 64 - 1) ^^^ RUNNING_BIT

/-- The update closure of
`LinuxInterruptHandle::set_running_and_increment_generation` (source
lines 450-460): the new value stored into the packed word by
`fetch_update` — set the running bit, increment the generation, wrapping
past `MAX_GENERATION` back to 0. -/
def set_running_and_increment_generation (raw : Nat) : Nat :=
  let generation := raw &&& NOT_RUNNING_BIT
  if generation = MAX_GENERATION then
    RUNNING_BIT
  else
    (generation + 1) ||| RUNNING_BIT

/-- Source `LinuxInterruptHandle::get_running_and_generation` as a pure decoding
of one relaxed load `raw` of the packed word. -/
def get_running_and_generation (raw : Nat) : Bool × Nat :=
  (raw &&& RUNNING_BIT != 0, raw &&& NOT_RUNNING_BIT)

/-- The loop of `LinuxInterruptHandle::send_signal` (source lines
475-503) over the scripted successive loads `obs` of the packed word.
State `target` is `target_generation`, `sent` is `sent_signal`. The
returned list records, for each `pthread_kill` actually performed, the
generation observed in that iteration; the returned Bool is
`sent_signal`. When the script runs out the loop's state so far is
returned (the real loop would go on consuming further loads). -/
def send_signal_loop : List Nat → Option Nat → Bool → Bool × List Nat
  | [], _, sent => (sent, [])
  | raw :: rest, target, sent =>
    let running := (get_running_and_generation raw).1
    let generation := (get_running_and_generation raw).2
    if running then
      match target with
      | none =>
        let r := send_signal_loop rest (some generation) true
        (r.1, generation :: r.2)
      | some expected =>
        if expected = generation then
          let r := send_signal_loop rest (some expected) true
          (r.1, generation :: r.2)
        else
          (sent, [])
    else
      (sent, [])

/-- Source `LinuxInterruptHandle::send_signal`: enter the loop with no target
generation captured and `sent_signal = false`. -/
def send_signal (obs : List Nat) : Bool × List Nat :=
  send_signal_loop obs none false

/-- The observable outcome of `LinuxInterruptHandle::kill`: the value
stored into `cancel_requested`, the returned Bool, and the generations at
which signals were sent. -/
structure KillResult where
  cancelRequested : Bool
  returned : Bool
  signals : List Nat
deriving DecidableEq, Repr

/-- Source `LinuxInterruptHandle::kill` (lines 508-512): store `true`
into `cancel_requested`, then `send_signal`. -/
def kill (obs : List Nat) : KillResult :=
  { cancelRequested := true
    returned := (send_signal obs).1
    signals := (send_signal obs).2 }

/-! ### Helper lemmas -/

/-- The run loop returns `Ok` only by taking a `Halt` exit from the
backend script. -/
theorem vcpuRun_ok_halt_mem
    (exits : List (Except HyperlightError HyperlightExit))
    (io dbg cd ma : List (Except HyperlightError Unit))
    (h : (vcpuRun exits io dbg cd ma).1 = some (Except.ok ())) :
    Except.ok HyperlightExit.Halt ∈ exits := by
  induction exits generalizing io dbg cd ma with
  | nil => simp [vcpuRun] at h
  | cons e rest ih =>
    cases e with
    | error e' =>
      cases cd with
      | nil => simp [vcpuRun] at h
      | cons c cd' =>
        cases c with
        | error ce => simp [vcpuRun] at h
        | ok u =>
          cases u
          cases dbg with
          | nil => simp [vcpuRun] at h
          | cons d dbg' => simp [vcpuRun] at h
    | ok ex =>
      cases ex with
      | Debug stopReason =>
        cases dbg with
        | nil => simp [vcpuRun] at h
        | cons d dbg' =>
          cases d with
          | error de => simp [vcpuRun] at h
          | ok u =>
            cases u
            rw [show vcpuRun (Except.ok (HyperlightExit.Debug stopReason) :: rest) io
                  (Except.ok () :: dbg') cd ma = vcpuRun rest io dbg' cd ma from rfl] at h
            exact List.mem_cons_of_mem _ (ih _ _ _ _ h)
      | Halt => exact List.mem_cons_self _ _
      | IoOut port data rip len =>
        cases io with
        | nil => simp [vcpuRun] at h
        | cons i io' =>
          cases i with
          | error ie => simp [vcpuRun] at h
          | ok u =>
            cases u
            rw [show vcpuRun (Except.ok (HyperlightExit.IoOut port data rip len) :: rest)
                  (Except.ok () :: io') dbg cd ma = vcpuRun rest io' dbg cd ma from rfl] at h
            exact List.mem_cons_of_mem _ (ih _ _ _ _ h)
      | Mmio addr =>
        cases cd with
        | nil => simp [vcpuRun] at h
        | cons c cd' =>
          cases c with
          | error ce => simp [vcpuRun] at h
          | ok u =>
            cases u
            cases ma with
            | nil => simp [vcpuRun] at h
            | cons m ma' =>
              cases m with
              | error me => simp [vcpuRun] at h
              | ok u' => cases u'; simp [vcpuRun] at h
      | AccessViolation addr tried perm =>
        cases cd with
        | nil => simp [vcpuRun] at h
        | cons c cd' =>
          cases c with
          | error ce => simp [vcpuRun] at h
          | ok u =>
            cases u
            cases dbg with
            | nil => simp [vcpuRun] at h
            | cons d dbg' =>
              by_cases hsg : flagsIntersects perm STACK_GUARD = true
              · simp [vcpuRun, hsg] at h
              · simp [vcpuRun, hsg] at h
      | Cancelled => simp [vcpuRun] at h
      | Unknown reason =>
        cases cd with
        | nil => simp [vcpuRun] at h
        | cons c cd' =>
          cases c with
          | error ce => simp [vcpuRun] at h
          | ok u =>
            cases u
            cases dbg with
            | nil => simp [vcpuRun] at h
            | cons d dbg' => simp [vcpuRun] at h
      | Retry =>
        rw [show vcpuRun (Except.ok HyperlightExit.Retry :: rest) io dbg cd ma
              = vcpuRun rest io dbg cd ma from rfl] at h
        exact List.mem_cons_of_mem _ (ih _ _ _ _ h)

/-! ### Claims about the run loop -/

/-- C6: for every `Cancelled` exit, `VirtualCPU::run` increments the
guest-cancellation metric by exactly one and returns the
`ExecutionCanceledByHost` error. -/
theorem cancelled_increments_metric_and_returns :
    ∀ (rest : List (Except HyperlightError HyperlightExit))
      (io dbg cd ma : List (Except HyperlightError Unit)),
    vcpuRun (Except.ok HyperlightExit.Cancelled :: rest) io dbg cd ma
      = (some (Except.error HyperlightError.ExecutionCanceledByHost), 1) := by
  intros
  rfl

/-- C5's counterexample: an `AccessViolation` exit whose region flags are
exactly `STACK_GUARD`, with a failing crashdump writer: `VirtualCPU::run`
returns the crashdump writer's error (propagated by `?`), not
`StackOverflow`, so the claim as stated is false. -/
theorem crashdump_error_masks_stack_overflow :
    (vcpuRun [Except.ok (HyperlightExit.AccessViolation 7 2 8)] [] [Except.ok ()]
        [Except.error (HyperlightError.Error "disk full")] []).1
      = some (Except.error (HyperlightError.Error "disk full"))
    ∧ flagsIntersects 8 STACK_GUARD = true
    ∧ HyperlightError.Error "disk full" ≠ HyperlightError.StackOverflow := by
  refine ⟨rfl, by decide, by decide⟩

/-- C5 (amended): for every `AccessViolation` exit, provided the
crashdump snapshot succeeds, `VirtualCPU::run` returns `StackOverflow` if
the region flags intersect STACK_GUARD and otherwise
`MemoryAccessViolation(addr, tried, perm)` — regardless of the outcome of
the (discarded) debug-stub crash notification. -/
theorem access_violation_classification :
    ∀ (addr tried perm : Nat)
      (rest : List (Except HyperlightError HyperlightExit))
      (io dbg cd ma : List (Except HyperlightError Unit))
      (d : Except HyperlightError Unit),
    vcpuRun (Except.ok (HyperlightExit.AccessViolation addr tried perm) :: rest)
        io (d :: dbg) (Except.ok () :: cd) ma
      = (some (Except.error
          (if flagsIntersects perm STACK_GUARD then HyperlightError.StackOverflow
           else HyperlightError.MemoryAccessViolation addr tried perm)), 0) := by
  intro addr tried perm rest io dbg cd ma d
  by_cases hsg : flagsIntersects perm STACK_GUARD = true
  · simp [vcpuRun, hsg]
  · simp [vcpuRun, hsg]

/-- C2's counterexample: on an `Mmio` fatal exit, a failing crashdump
writer masks the primary error: `VirtualCPU::run` returns the crashdump
writer's own error instead of the MMIO error, so the claim as stated is
false. -/
theorem crashdump_error_masks_mmio :
    (vcpuRun [Except.ok (HyperlightExit.Mmio 66)] [] []
        [Except.error (HyperlightError.Error "crashdump failed")] []).1
      = some (Except.error (HyperlightError.Error "crashdump failed"))
    ∧ HyperlightError.Error "crashdump failed" ≠ HyperlightError.MmioAt 66 := by
  refine ⟨rfl, by decide⟩

/-- C2 (amended): on the fatal-exit paths, the discarded debug-stub crash
notification never masks the primary error (the result is the same
whatever its outcome), but a failure of the crashdump writer — and, on
the Mmio path, of the memory-access hook — propagates by `?` and replaces
the primary error. -/
theorem side_effect_results_on_error_paths :
    ∀ (addr tried perm : Nat) (reason : String) (e ce me : HyperlightError)
      (rest : List (Except HyperlightError HyperlightExit))
      (io dbg cd ma : List (Except HyperlightError Unit))
      (d d' : Except HyperlightError Unit),
    vcpuRun (Except.ok (HyperlightExit.AccessViolation addr tried perm) :: rest)
        io (d :: dbg) (Except.ok () :: cd) ma
      = vcpuRun (Except.ok (HyperlightExit.AccessViolation addr tried perm) :: rest)
        io (d' :: dbg) (Except.ok () :: cd) ma
    ∧ vcpuRun (Except.ok (HyperlightExit.Unknown reason) :: rest)
        io (d :: dbg) (Except.ok () :: cd) ma
      = vcpuRun (Except.ok (HyperlightExit.Unknown reason) :: rest)
        io (d' :: dbg) (Except.ok () :: cd) ma
    ∧ vcpuRun (Except.error e :: rest) io (d :: dbg) (Except.ok () :: cd) ma
      = vcpuRun (Except.error e :: rest) io (d' :: dbg) (Except.ok () :: cd) ma
    ∧ vcpuRun (Except.ok (HyperlightExit.Mmio addr) :: rest) io dbg
        (Except.error ce :: cd) ma = (some (Except.error ce), 0)
    ∧ vcpuRun (Except.ok (HyperlightExit.Mmio addr) :: rest) io dbg
        (Except.ok () :: cd) (Except.error me :: ma) = (some (Except.error me), 0)
    ∧ vcpuRun (Except.ok (HyperlightExit.AccessViolation addr tried perm) :: rest)
        io dbg (Except.error ce :: cd) ma = (some (Except.error ce), 0)
    ∧ vcpuRun (Except.ok (HyperlightExit.Unknown reason) :: rest) io dbg
        (Except.error ce :: cd) ma = (some (Except.error ce), 0)
    ∧ vcpuRun (Except.error e :: rest) io dbg (Except.error ce :: cd) ma
      = (some (Except.error ce), 0) := by
  intro addr tried perm reason e ce me rest io dbg cd ma d d'
  refine ⟨rfl, rfl, rfl, rfl, rfl, rfl, rfl, rfl⟩

/-- C9: the run loop returns `Ok` only through a `Halt` exit (and a
head `Halt` yields `Ok` after exactly one step); `Retry` re-issues the
backend run with no other effect; `IoOut` and `Debug` continue only after
their handlers succeed (a failing handler's error terminates the run);
and no other exit continues the run — on `Mmio`, `AccessViolation`,
`Cancelled`, `Unknown` or a backend error the result does not depend on
the remaining backend script. -/
theorem run_loop_halt_and_retry :
    ∀ (exits rest rest' : List (Except HyperlightError HyperlightExit))
      (io dbg cd ma : List (Except HyperlightError Unit))
      (port rip instructionLength addr tried perm : Nat) (data : List Nat)
      (stopReason : VcpuStopReason) (eio edbg e : HyperlightError) (reason : String),
    ((vcpuRun exits io dbg cd ma).1 = some (Except.ok ()) →
      Except.ok HyperlightExit.Halt ∈ exits)
    ∧ vcpuRun (Except.ok HyperlightExit.Halt :: rest) io dbg cd ma
        = (some (Except.ok ()), 0)
    ∧ vcpuRun (Except.ok HyperlightExit.Retry :: rest) io dbg cd ma
        = vcpuRun rest io dbg cd ma
    ∧ vcpuRun (Except.ok (HyperlightExit.IoOut port data rip instructionLength) :: rest)
        (Except.ok () :: io) dbg cd ma = vcpuRun rest io dbg cd ma
    ∧ vcpuRun (Except.ok (HyperlightExit.Debug stopReason) :: rest) io
        (Except.ok () :: dbg) cd ma = vcpuRun rest io dbg cd ma
    ∧ vcpuRun (Except.ok (HyperlightExit.IoOut port data rip instructionLength) :: rest)
        (Except.error eio :: io) dbg cd ma = (some (Except.error eio), 0)
    ∧ vcpuRun (Except.ok (HyperlightExit.Debug stopReason) :: rest) io
        (Except.error edbg :: dbg) cd ma = (some (Except.error edbg), 0)
    ∧ vcpuRun (Except.ok (HyperlightExit.Mmio addr) :: rest) io dbg cd ma
        = vcpuRun (Except.ok (HyperlightExit.Mmio addr) :: rest') io dbg cd ma
    ∧ vcpuRun (Except.ok (HyperlightExit.AccessViolation addr tried perm) :: rest)
          io dbg cd ma
        = vcpuRun (Except.ok (HyperlightExit.AccessViolation addr tried perm) :: rest')
          io dbg cd ma
    ∧ vcpuRun (Except.ok HyperlightExit.Cancelled :: rest) io dbg cd ma
        = vcpuRun (Except.ok HyperlightExit.Cancelled :: rest') io dbg cd ma
    ∧ vcpuRun (Except.ok (HyperlightExit.Unknown reason) :: rest) io dbg cd ma
        = vcpuRun (Except.ok (HyperlightExit.Unknown reason) :: rest') io dbg cd ma
    ∧ vcpuRun (Except.error e :: rest) io dbg cd ma
        = vcpuRun (Except.error e :: rest') io dbg cd ma := by
  intro exits rest rest' io dbg cd ma port rip instructionLength addr tried perm data
    stopReason eio edbg e reason
  exact ⟨vcpuRun_ok_halt_mem exits io dbg cd ma, rfl, rfl, rfl, rfl, rfl, rfl, rfl,
    rfl, rfl, rfl, rfl⟩

/-- C9's witness: the loop over the one-element script `[Halt]` returns
`Ok`, and the theorem's implication then places `Halt` in the script. -/
theorem run_loop_halt_and_retry_witness :
    Except.ok HyperlightExit.Halt
      ∈ ([Except.ok HyperlightExit.Halt] : List (Except HyperlightError HyperlightExit)) := by
  have h := run_loop_halt_and_retry [Except.ok HyperlightExit.Halt] [] [] [] [] [] []
    0 0 0 0 0 0 [] VcpuStopReason.Crash HyperlightError.StackOverflow
    HyperlightError.StackOverflow HyperlightError.StackOverflow ""
  exact h.1 rfl

/-! ### Claims about the memory-access arbiter -/

/-- C1: with `region` the first region whose half-open range contains
`gpa` (the `find` of the source), `get_memory_access_violation` returns
`Some(AccessViolation(gpa, attempted, region.flags))` exactly when the
region's flags do not contain every bit of `attempted` or contain
STACK_GUARD (stated as an equation, which gives both directions of the
claim's iff); some containing region always makes the `find` succeed; and
when no region contains `gpa` the result is `None`. -/
theorem get_memory_access_violation_correct :
    ∀ (gpa : Nat) (regions : List MemoryRegion) (attempted : Nat),
    (∀ region : MemoryRegion,
      regions.find? (fun r => regionContainsGpa r gpa) = some region →
      get_memory_access_violation gpa regions attempted
        = (if !(flagsContains region.flags attempted)
              || flagsContains region.flags STACK_GUARD then
            some (HyperlightExit.AccessViolation gpa attempted region.flags)
          else none))
    ∧ ((∃ region ∈ regions, regionContainsGpa region gpa = true) →
        ∃ region, regions.find? (fun r => regionContainsGpa r gpa) = some region)
    ∧ ((∀ region ∈ regions, regionContainsGpa region gpa = false) →
        get_memory_access_violation gpa regions attempted = none) := by
  intro gpa regions attempted
  refine ⟨?_, ?_, ?_⟩
  · intro region h
    rw [get_memory_access_violation, h]
  · intro ⟨region, hmem, hc⟩
    have : (regions.find? (fun r => regionContainsGpa r gpa)).isSome := by
      rw [List.find?_isSome]
      exact ⟨region, hmem, hc⟩
    exact Option.isSome_iff_exists.mp this
  · intro hall
    have h : regions.find? (fun r => regionContainsGpa r gpa) = none := by
      rw [List.find?_eq_none]
      intro r hr
      simp [hall r hr]
    rw [get_memory_access_violation, h]

/-- C1's witness: a region `[0,10)` with only the READ bit denies a WRITE
attempt at address 5, and an address outside every region yields `None`. -/
theorem get_memory_access_violation_correct_witness :
    get_memory_access_violation 5 [⟨0, 10, 1⟩] 2
      = some (HyperlightExit.AccessViolation 5 2 1)
    ∧ get_memory_access_violation 55 [⟨0, 10, 3⟩] 2 = none := by
  constructor
  · have h := (get_memory_access_violation_correct 5 [⟨0, 10, 1⟩] 2).1 ⟨0, 10, 1⟩ rfl
    rw [h]
    decide
  · exact (get_memory_access_violation_correct 55 [⟨0, 10, 3⟩] 2).2.2 (by decide)

/-- C10: when several regions contain `gpa`, the first one in sequence
order decides: with no region of `pre` containing `gpa` and `r`
containing it, the verdict and the reported flags come from `r`, whatever
regions (containing `gpa` or not) follow in `post`. -/
theorem first_containing_region_decides :
    ∀ (gpa attempted : Nat) (pre post : List MemoryRegion) (r : MemoryRegion),
    (∀ p ∈ pre, regionContainsGpa p gpa = false) →
    regionContainsGpa r gpa = true →
    get_memory_access_violation gpa (pre ++ r :: post) attempted
      = (if !(flagsContains r.flags attempted) || flagsContains r.flags STACK_GUARD then
          some (HyperlightExit.AccessViolation gpa attempted r.flags)
        else none) := by
  intro gpa attempted pre post r hpre hr
  have hfind : (pre ++ r :: post).find? (fun q => regionContainsGpa q gpa) = some r := by
    induction pre with
    | nil =>
      simp only [List.nil_append]
      exact List.find?_cons_of_pos post hr
    | cons p ps ih =>
      rw [List.cons_append, List.find?_cons_of_neg]
      · exact ih fun q hq => hpre q (List.mem_cons_of_mem _ hq)
      · simp [hpre p (List.mem_cons_self _ _)]
  rw [get_memory_access_violation, hfind]

/-- C10's witness: the first containing region `[2,6)` carries
STACK_GUARD and decides the verdict, even though the second containing
region `[2,6)` with flags READ|WRITE|EXECUTE would have allowed the
access. -/
theorem first_containing_region_decides_witness :
    get_memory_access_violation 3 [⟨0, 1, 1⟩, ⟨2, 6, 8⟩, ⟨2, 6, 7⟩] 2
      = some (HyperlightExit.AccessViolation 3 2 8) := by
  have h := first_containing_region_decides 3 2 [⟨0, 1, 1⟩] [⟨2, 6, 7⟩] ⟨2, 6, 8⟩
    (by decide) (by decide)
  rw [show ([⟨0, 1, 1⟩] : List MemoryRegion) ++ ⟨2, 6, 8⟩ :: [⟨2, 6, 7⟩]
        = [⟨0, 1, 1⟩, ⟨2, 6, 8⟩, ⟨2, 6, 7⟩] from rfl] at h
  rw [h]
  decide

/-! ### Claims about the interrupt handle -/

/-- Every signal sent by the `send_signal` loop once a target generation
`expected` has been captured is sent in an iteration observing exactly
`expected`. -/
theorem send_signal_loop_target :
    ∀ (obs : List Nat) (expected : Nat) (sent : Bool) (g : Nat),
    g ∈ (send_signal_loop obs (some expected) sent).2 → g = expected := by
  intro obs
  induction obs with
  | nil => intro expected sent g hg; simp [send_signal_loop] at hg
  | cons raw rest ih =>
    intro expected sent g hg
    by_cases hrun : (get_running_and_generation raw).1 = true
    · by_cases heq : expected = (get_running_and_generation raw).2
      · simp [send_signal_loop, hrun, ← heq] at hg
        rcases hg with rfl | hg
        · rfl
        · exact ih expected true g hg
      · simp [send_signal_loop, hrun, heq] at hg
    · simp [send_signal_loop, hrun] at hg

/-- C3: in `send_signal`, every signal is sent in an iteration observing
the generation captured at the first iteration (the generation decoded
from the first load, which must have the running bit set for any signal
to be sent at all); and once a target generation has been captured, an
iteration observing a different generation sends nothing and stops the
loop. -/
theorem send_signal_single_generation :
    ∀ (raw : Nat) (rest : List Nat) (g expected : Nat),
    (g ∈ (send_signal (raw :: rest)).2 → g = (get_running_and_generation raw).2)
    ∧ ((get_running_and_generation raw).1 = true →
        expected ≠ (get_running_and_generation raw).2 →
        send_signal_loop (raw :: rest) (some expected) true = (true, [])) := by
  intro raw rest g expected
  constructor
  · intro hg
    by_cases hrun : (get_running_and_generation raw).1 = true
    · simp [send_signal, send_signal_loop, hrun] at hg
      rcases hg with rfl | hg
      · rfl
      · exact send_signal_loop_target rest _ true g hg
    · simp [send_signal, send_signal_loop, hrun] at hg
  · intro hrun hne
    simp [send_signal_loop, hrun, hne]

/-- C3's witness: two consecutive loads both running, with generations 5
then 7: the only signal is sent at the captured generation 5, and a loop
already targeting generation 1 stops at once on observing 5. -/
theorem send_signal_single_generation_witness :
    (5 : Nat) = (get_running_and_generation (2 ^ 63 + 5)).2
    ∧ send_signal_loop [2 ^ 63 + 5, 2 ^ 63 + 7] (some 1) true = (true, []) := by
  have h := send_signal_single_generation (2 ^ 63 + 5) [2 ^ 63 + 7] 5 1
  exact ⟨h.1 (by decide), h.2 (by decide) (by decide)⟩

/-- C4: `kill` always stores `true` into `cancel_requested`, whether or
not the vCPU is running; and when the running bit is clear in the first
snapshot taken by `send_signal`, `kill` sends no signal and returns
`false`. -/
theorem kill_sets_cancel_requested :
    ∀ (obs : List Nat) (raw : Nat) (rest : List Nat),
    (kill obs).cancelRequested = true
    ∧ ((get_running_and_generation raw).1 = false →
        (kill (raw :: rest)).returned = false ∧ (kill (raw :: rest)).signals = []) := by
  intro obs raw rest
  constructor
  · rfl
  · intro hrun
    constructor
    · simp [kill, send_signal, send_signal_loop, hrun]
    · simp [kill, send_signal, send_signal_loop, hrun]

/-- C4's witness: a snapshot word with the running bit clear (raw value
5): `kill` still records the cancellation request, sends nothing and
returns `false`. -/
theorem kill_sets_cancel_requested_witness :
    (kill [5]).cancelRequested = true
    ∧ (kill [5]).returned = false ∧ (kill [5]).signals = [] := by
  have h := kill_sets_cancel_requested [5] 5 []
  exact ⟨h.1, h.2 (by decide)⟩

/-- Setting the high bit of a 63-bit value by `|||` leaves the low 63
bits unchanged. -/
theorem lor_two_pow_mod_self (a : Nat) (h : a < 2 ^ 63) :
    (a ||| 2 ^ 63) % 2 ^ 63 = a := by
  apply Nat.eq_of_testBit_eq
  intro i
  rw [Nat.testBit_mod_two_pow, Nat.testBit_lor, Nat.testBit_two_pow]
  by_cases hi : i < 63
  · have h63 : decide (63 = i) = false := by
      simp only [decide_eq_false_iff_not]
      omega
    simp [hi, h63]
  · have hbit : a.testBit i = false :=
      Nat.testBit_eq_false_of_lt
        (lt_of_lt_of_le h (Nat.pow_le_pow_right (by norm_num) (by omega)))
    simp [hi, hbit]

/-- Arithmetic restatement of the `fetch_update` closure: the bit masks
of the source are `% 2^63` and `||| 2^63` on the generation. -/
theorem set_running_and_increment_generation_eq (raw : Nat) :
    set_running_and_increment_generation raw
      = if raw % 2 ^ 63 = 2 ^ 63 - 1 then 2 ^ 63
        else (raw % 2 ^ 63 + 1) ||| 2 ^ 63 := by
  have hgen : raw &&& NOT_RUNNING_BIT = raw % 2 ^ 63 := by
    rw [show NOT_RUNNING_BIT = 2 ^ 63 - 1 from by decide]
    exact Nat.and_pow_two_sub_one_eq_mod raw 63
  simp only [set_running_and_increment_generation, hgen,
    show MAX_GENERATION = 2 ^ 63 - 1 from by decide,
    show RUNNING_BIT = 2 ^ 63 from by decide]

/-- C7: `set_running_and_increment_generation` maps a packed word with
generation `g` to a word with the running bit (bit 63) set and generation
`(g + 1) mod 2^63`; in particular a word whose generation is
`MAX_GENERATION` goes to `RUNNING_BIT` itself, i.e. generation 0 with the
running bit set. -/
theorem set_running_and_increment_generation_correct :
    ∀ raw : Nat,
    Nat.testBit (set_running_and_increment_generation raw) 63 = true
    ∧ set_running_and_increment_generation raw % 2 ^ 63
        = (raw % 2 ^ 63 + 1) % 2 ^ 63
    ∧ (raw &&& NOT_RUNNING_BIT = MAX_GENERATION →
        set_running_and_increment_generation raw = RUNNING_BIT) := by
  intro raw
  have hgen : raw &&& NOT_RUNNING_BIT = raw % 2 ^ 63 := by
    rw [show NOT_RUNNING_BIT = 2 ^ 63 - 1 from by decide]
    exact Nat.and_pow_two_sub_one_eq_mod raw 63
  have hlt : raw % 2 ^ 63 < 2 ^ 63 := Nat.mod_lt _ (by norm_num)
  by_cases hg : raw % 2 ^ 63 = 2 ^ 63 - 1
  · refine ⟨?_, ?_, ?_⟩
    · rw [set_running_and_increment_generation_eq, if_pos hg]
      decide
    · rw [set_running_and_increment_generation_eq, if_pos hg, hg]
      decide
    · intro _
      rw [set_running_and_increment_generation_eq, if_pos hg]
      decide
  · have hlt' : raw % 2 ^ 63 + 1 < 2 ^ 63 := by omega
    refine ⟨?_, ?_, ?_⟩
    · rw [set_running_and_increment_generation_eq, if_neg hg,
        Nat.testBit_lor, Nat.testBit_two_pow]
      simp
    · rw [set_running_and_increment_generation_eq, if_neg hg,
        lor_two_pow_mod_self _ hlt', Nat.mod_eq_of_lt hlt']
    · intro hc
      rw [hgen] at hc
      rw [show MAX_GENERATION = 2 ^ 63 - 1 from by decide] at hc
      exact absurd hc hg

/-- C7's witness: from a word whose generation is exactly
`MAX_GENERATION` (`2^63 - 1`, running bit clear), the update yields
generation 0 with the running bit set. -/
theorem set_running_and_increment_generation_correct_witness :
    Nat.testBit (set_running_and_increment_generation (2 ^ 63 - 1)) 63 = true
    ∧ set_running_and_increment_generation (2 ^ 63 - 1) % 2 ^ 63
        = ((2 ^ 63 - 1) % 2 ^ 63 + 1) % 2 ^ 63
    ∧ set_running_and_increment_generation (2 ^ 63 - 1) = RUNNING_BIT := by
  have h := set_running_and_increment_generation_correct (2 ^ 63 - 1)
  exact ⟨h.1, h.2.1, h.2.2 (by decide)⟩

/-! ### Claims about log-level negotiation -/

/-- The first segment produced by `splitOnChar` is the leading run of
non-separator characters. -/
theorem splitOnChar_head_shape (c : Char) (s : List Char) :
    ∃ t, splitOnChar c s = s.takeWhile (fun x => !decide (x = c)) :: t := by
  induction s with
  | nil => exact ⟨[], rfl⟩
  | cons x xs ih =>
    obtain ⟨t, ht⟩ := ih
    by_cases hx : x = c
    · exact ⟨splitOnChar c xs, by simp [splitOnChar, hx]⟩
    · exact ⟨t, by simp [splitOnChar, hx, ht]⟩

/-- Every segment produced by `splitOnChar` occurs contiguously in the
input. -/
theorem mem_splitOnChar_sub {c : Char} {s u : List Char}
    (hu : u ∈ splitOnChar c s) : u <:+: s := by
  induction s generalizing u with
  | nil =>
    simp [splitOnChar] at hu
    simp [hu]
  | cons x xs ih =>
    by_cases hx : x = c
    · rw [show splitOnChar c (x :: xs) = [] :: splitOnChar c xs from by
          simp [splitOnChar, hx]] at hu
      rcases List.mem_cons.mp hu with rfl | hu'
      · exact List.nil_infix
      · exact List.infix_cons (ih hu')
    · obtain ⟨t, ht⟩ := splitOnChar_head_shape c xs
      rw [show splitOnChar c (x :: xs)
            = (x :: xs.takeWhile (fun y => !decide (y = c))) :: t from by
          simp [splitOnChar, hx, ht]] at hu
      rcases List.mem_cons.mp hu with rfl | hu'
      · exact List.IsPrefix.isInfix
          ( List.cons_prefix_cons.mpr ⟨rfl, List.takeWhile_prefix _⟩)
      · refine List.infix_cons (ih ?_)
        rw [ht]
        exact List.mem_cons_of_mem _ hu'

/-- A separator-free pattern that is a prefix of `s` is a prefix of the
leading separator-free run of `s`. -/
theorem takeWhile_keeps_pattern {c : Char} {p : List Char} (hc : c ∉ p) :
    ∀ {s : List Char}, p <+: s → p <+: s.takeWhile (fun x => !decide (x = c)) := by
  induction p with
  | nil => intro s _; exact List.nil_prefix
  | cons a p' ih =>
    intro s h
    cases s with
    | nil => simp at h
    | cons b s' =>
      obtain ⟨rfl, h'⟩ := List.cons_prefix_cons.mp h
      have ha : ¬(a = c) := fun hac => hc (hac ▸ List.mem_cons_self a p')
      rw [ List.takeWhile_cons]
      simp only [ha, decide_False, Bool.not_false, if_true]
      exact List.cons_prefix_cons.mpr
        ⟨rfl, ih (fun hm => hc (List.mem_cons_of_mem _ hm)) h'⟩

/-- A non-empty, separator-free pattern occurs in `s` exactly when it
occurs in one of the segments of `splitOnChar c s` (forward direction).
-/
theorem sub_segments_fwd {c : Char} {p : List Char} (hc : c ∉ p) (hp : p ≠ []) :
    ∀ s : List Char, p <:+: s → ∃ t ∈ splitOnChar c s, p <:+: t := by
  intro s
  induction s with
  | nil =>
    intro h
    exact absurd ( List.infix_nil.mp h) hp
  | cons x xs ih =>
    intro h
    rcases List.infix_cons_iff.mp h with hpre | hsuf
    · obtain ⟨t, ht⟩ := splitOnChar_head_shape c (x :: xs)
      refine ⟨(x :: xs).takeWhile (fun y => !decide (y = c)), ?_, ?_⟩
      · rw [ht]
        exact List.mem_cons_self _ _
      · exact List.IsPrefix.isInfix (takeWhile_keeps_pattern hc hpre)
    · obtain ⟨t, htm, hpt⟩ := ih hsuf
      by_cases hx : x = c
      · refine ⟨t, ?_, hpt⟩
        rw [show splitOnChar c (x :: xs) = [] :: splitOnChar c xs from by
            simp [splitOnChar, hx]]
        exact List.mem_cons_of_mem _ htm
      · obtain ⟨t', ht'⟩ := splitOnChar_head_shape c xs
        rw [ht'] at htm
        rcases List.mem_cons.mp htm with rfl | htm'
        · refine ⟨x :: xs.takeWhile (fun y => !decide (y = c)), ?_,
            List.infix_cons hpt⟩
          rw [show splitOnChar c (x :: xs)
                = (x :: xs.takeWhile (fun y => !decide (y = c))) :: t' from by
              simp [splitOnChar, hx, ht']]
          exact List.mem_cons_self _ _
        · refine ⟨t, ?_, hpt⟩
          rw [show splitOnChar c (x :: xs)
                = (x :: xs.takeWhile (fun y => !decide (y = c))) :: t' from by
              simp [splitOnChar, hx, ht']]
          exact List.mem_cons_of_mem _ htm'

/-- Rust `val.contains(pat)` for a non-empty pattern without the
separator character agrees with "some segment of `val.split(sep)`
contains `pat`". -/
theorem containsSub_segments {c : Char} {p : List Char}
    (hc : c ∉ p) (hp : p ≠ []) (s : List Char) :
    containsSub p s = true ↔ ∃ t ∈ splitOnChar c s, containsSub p t = true := by
  simp only [containsSub, decide_eq_true_iff]
  exact ⟨sub_segments_fwd hc hp s,
    fun ⟨t, htm, hpt⟩ => List.IsInfix.trans hpt (mem_splitOnChar_sub htm)⟩

/-- C8: `get_max_log_level` selects its level token in the claim's
priority order — the token after `=` of the first segment mentioning the
guest logger name when any segment does, else of the first segment
mentioning the host logger name, else the first segment with no `=` —
and defaults to `Error` whenever the selected (or missing) token fails to
parse: the source function agrees with the claim-side selection
`get_max_log_level_claim` on every input. -/
theorem get_max_log_level_priority :
    ∀ val : List Char, get_max_log_level val = get_max_log_level_claim val := by
  intro val
  have hgc : ',' ∉ guestLoggerName := by decide
  have hgn : guestLoggerName ≠ [] := by decide
  have hhc : ',' ∉ hostLoggerName := by decide
  have hhn : hostLoggerName ≠ [] := by decide
  rw [get_max_log_level, get_max_log_level_claim]
  cases hfg : (splitOnChar ',' val).find? (fun s => containsSub guestLoggerName s) with
  | some seg =>
    have hvg : containsSub guestLoggerName val = true :=
      (containsSub_segments hgc hgn val).mpr
        ⟨seg, List.mem_of_find?_eq_some hfg, List.find?_some hfg⟩
    simp [hfg, hvg]
  | none =>
    have hvg : containsSub guestLoggerName val = false := by
      cases hb : containsSub guestLoggerName val
      · rfl
      · obtain ⟨t, htm, hpt⟩ := (containsSub_segments hgc hgn val).mp hb
        have hnone := List.find?_eq_none.mp hfg t htm
        rw [hpt] at hnone
        exact absurd rfl hnone
    cases hfh : (splitOnChar ',' val).find? (fun s => containsSub hostLoggerName s) with
    | some seg =>
      have hvh : containsSub hostLoggerName val = true :=
        (containsSub_segments hhc hhn val).mpr
          ⟨seg, List.mem_of_find?_eq_some hfh, List.find?_some hfh⟩
      simp [hfg, hvg, hvh, hfh]
    | none =>
      have hvh : containsSub hostLoggerName val = false := by
        cases hb : containsSub hostLoggerName val
        · rfl
        · obtain ⟨t, htm, hpt⟩ := (containsSub_segments hhc hhn val).mp hb
          have hnone := List.find?_eq_none.mp hfh t htm
          rw [hpt] at hnone
          exact absurd rfl hnone
      simp [hfg, hvg, hvh, hfh]

end Hyperlight
